import Mathlib

/-!
Verification of the blueprint repository's registry, build-method synthesis and
code-writer subsystems, as shallowly embedded Lean definitions translated from
`src/blueprint/registry.py`, `src/blueprint/core.py`, `src/blueprint/dag_writer.py`
and `src/blueprint/errors.py`.
-/

namespace Blueprint

/-! ### ASCII character classes used by the Python code

`[A-Z]`, `[a-z]`, `\d` in the regexes of `BlueprintRegistry._get_blueprint_name`,
and `str.isupper` / `str.islower` / `str.lower` as they act on ASCII class
identifiers. -/

def isUp (c : Char) : Bool := 65 ≤ c.toNat && c.toNat ≤ 90

def isLow (c : Char) : Bool := 97 ≤ c.toNat && c.toNat ≤ 122

def isDigitC (c : Char) : Bool := 48 ≤ c.toNat && c.toNat ≤ 57

/-- `str.lower` on one ASCII character: shift an uppercase letter by 32,
leave everything else unchanged. -/
def pyLower (c : Char) : Char :=
  if isUp c then Char.ofNat (c.toNat + 32) else c

/-! ### Registry name derivation (`BlueprintRegistry._get_blueprint_name`)

```
name = re.sub("([A-Z]+)([A-Z][a-z])", r"\1_\2", class_name)
name = re.sub(r"([a-z\d])([A-Z])", r"\1_\2", name)
return name.lower()
```

Pass 1 inserts an underscore inside every maximal uppercase run of length at
least two that is directly followed by a lowercase letter, just before the
run's last letter.  Since every leftmost non-overlapping match of
`([A-Z]+)([A-Z][a-z])` covers such a run plus its following lowercase letter,
this is the same as inserting `_` between two adjacent uppercase letters whose
successor is lowercase (two matches can never overlap: a match ends in a
lowercase letter and begins at an uppercase letter). -/
def sub1 : List Char → List Char
  | x :: y :: z :: rest =>
    if isUp x && isUp y && isLow z then x :: '_' :: sub1 (y :: z :: rest)
    else x :: sub1 (y :: z :: rest)
  | other => other

/-- Pass 2, `re.sub(r"([a-z\d])([A-Z])", r"\1_\2", name)`: insert `_` between a
lowercase letter or digit and a following uppercase letter.  Matches of this
two-character pattern can never overlap (the second character of a match is
uppercase, which cannot begin another match), so non-overlapping leftmost
replacement is plain pairwise insertion. -/
def sub2 : List Char → List Char
  | x :: y :: rest =>
    if (isLow x || isDigitC x) && isUp y then x :: '_' :: sub2 (y :: rest)
    else x :: sub2 (y :: rest)
  | other => other

/-- `BlueprintRegistry._get_blueprint_name`: the two regex passes followed by
`str.lower`. -/
def getBlueprintName (s : String) : String :=
  ⟨(sub2 (sub1 s.data)).map pyLower⟩

/-! ### Blueprint's own template-name derivation (`Blueprint._get_template_name`)

```
template_name = ""
for i, char in enumerate(class_name):
    if char.isupper() and i > 0:
        if i > 0 and class_name[i-1].islower():
            template_name += "_"
    template_name += char.lower()
```
The loop is folded with the previous original character as state. -/
def tmplGo : Option Char → List Char → List Char
  | _, [] => []
  | prev, c :: cs =>
    (if isUp c && (match prev with | some p => isLow p | none => false)
     then '_' :: pyLower c :: tmplGo (some c) cs
     else pyLower c :: tmplGo (some c) cs)

def getTemplateName (s : String) : String :=
  ⟨tmplGo none s.data⟩

/-- No digit immediately followed by an uppercase letter anywhere in the list. -/
def noDigitUpper : List Char → Bool
  | x :: y :: rest => !(isDigitC x && isUp y) && noDigitUpper (y :: rest)
  | _ => true

/-- No two adjacent uppercase letters followed by a lowercase letter. -/
def noUUL : List Char → Bool
  | x :: y :: z :: rest => !(isUp x && isUp y && isLow z) && noUUL (y :: z :: rest)
  | _ => true

end Blueprint

namespace Blueprint

/-! ### difflib model (`difflib.get_close_matches`, used by `BlueprintNotFoundError`)

`errors.py` computes suggestions with
`difflib.get_close_matches(blueprint_name, available, n=3, cutoff=0.6)`.
The similarity score is `SequenceMatcher(None, x, word).ratio()
= 2 * M / (len(x) + len(word))` where `M` is the total size of the matching
blocks.  Ratios are compared here as exact rationals by cross-multiplication;
for the integer magnitudes involved the correctly rounded float comparisons of
difflib agree with the exact rational ones (two distinct rationals `2M/T` with
`T` below `10^15` never round to the same double as `0.6`, and float rounding
is monotone), and difflib's `real_quick_ratio`/`quick_ratio` pre-filters are
upper bounds of `ratio`, so the acceptance condition reduces to
`ratio >= cutoff`. -/

/-- `b2j.setdefault(elt, []).append(i)`: append index `i` to the entry of
character `c`, keeping dict insertion order. -/
def b2jAdd (m : List (Char × List Nat)) (c : Char) (i : Nat) : List (Char × List Nat) :=
  match m with
  | [] => [(c, [i])]
  | (c', is) :: rest =>
    if c' = c then (c', is ++ [i]) :: rest else (c', is) :: b2jAdd rest c i

/-- The `b2j` dict of `SequenceMatcher.__chain_b`: each character of `b` maps to
the ascending list of its indices. -/
def b2jBuild (b : List Char) : List (Char × List Nat) :=
  b.enum.foldl (fun m p => b2jAdd m p.2 p.1) []

/-- `__chain_b`'s autojunk step: for `len(b) >= 200`, entries occurring more
than `len(b) // 100 + 1` times are deleted from `b2j` (they go to `bpopular`,
not to the junk set `bjunk`, which stays empty since `isjunk` is `None`). -/
def b2jAuto (b : List Char) : List (Char × List Nat) :=
  let m := b2jBuild b
  if 200 ≤ b.length then
    m.filter (fun p => p.2.length ≤ b.length / 100 + 1)
  else m

def b2jGet (m : List (Char × List Nat)) (c : Char) : List Nat :=
  (List.lookup c m).getD []

/-- Running best match of `find_longest_match`. -/
structure FlmState where
  besti : Nat
  bestj : Nat
  bestsize : Nat
deriving DecidableEq

/-- Inner `for j in b2j.get(a[i], nothing)` loop of `find_longest_match`:
`continue` below `blo`, `break` at `bhi`, otherwise extend the diagonal run
ending at `(i, j)` (`k = j2len.get(j-1, 0) + 1`; a Python key of `-1` reads the
default `0`) and update the best block. -/
def flmInner (j2len : List (Nat × Nat)) (i blo bhi : Nat) :
    List Nat → List (Nat × Nat) → FlmState → List (Nat × Nat) × FlmState
  | [], newj2len, st => (newj2len, st)
  | j :: js, newj2len, st =>
    if j < blo then flmInner j2len i blo bhi js newj2len st
    else if bhi ≤ j then (newj2len, st)
    else
      let k := (if j = 0 then 0 else (List.lookup (j - 1) j2len).getD 0) + 1
      let st' := if st.bestsize < k then ⟨i + 1 - k, j + 1 - k, k⟩ else st
      flmInner j2len i blo bhi js ((j, k) :: newj2len) st'

/-- Outer `for i in range(alo, ahi)` loop, threading `j2len`. -/
def flmRows (b2j : List (Char × List Nat)) (blo bhi : Nat) :
    List (Nat × Char) → List (Nat × Nat) → FlmState → FlmState
  | [], _, st => st
  | (i, c) :: rest, j2len, st =>
    let (newj2len, st') := flmInner j2len i blo bhi (b2jGet b2j c) [] st
    flmRows b2j blo bhi rest newj2len st'

/-- First extension loop: grow the best block downwards over equal non-junk
characters (the junk set is empty here, so the `not isbjunk` test passes). -/
def flmExtLow (a b : List Char) (alo blo : Nat) : Nat → FlmState → FlmState
  | 0, st => st
  | fuel + 1, st =>
    if alo < st.besti && blo < st.bestj
        && (a.getD (st.besti - 1) (Char.ofNat 0) == b.getD (st.bestj - 1) (Char.ofNat 0)) then
      flmExtLow a b alo blo fuel ⟨st.besti - 1, st.bestj - 1, st.bestsize + 1⟩
    else st

/-- Second extension loop: grow the best block upwards over equal non-junk
characters. -/
def flmExtHigh (a b : List Char) (ahi bhi : Nat) : Nat → FlmState → FlmState
  | 0, st => st
  | fuel + 1, st =>
    if st.besti + st.bestsize < ahi && st.bestj + st.bestsize < bhi
        && (a.getD (st.besti + st.bestsize) (Char.ofNat 0)
            == b.getD (st.bestj + st.bestsize) (Char.ofNat 0)) then
      flmExtHigh a b ahi bhi fuel ⟨st.besti, st.bestj, st.bestsize + 1⟩
    else st

/-- `SequenceMatcher.find_longest_match(alo, ahi, blo, bhi)` with `isjunk=None`
(the two junk-only extension loops can never fire and are omitted). -/
def findLongestMatch (a b : List Char) (b2j : List (Char × List Nat))
    (alo ahi blo bhi : Nat) : Nat × Nat × Nat :=
  let rows := (a.enum.drop alo).take (ahi - alo)
  let st1 := flmRows b2j blo bhi rows [] ⟨alo, blo, 0⟩
  let st2 := flmExtLow a b alo blo st1.besti st1
  let st3 := flmExtHigh a b ahi bhi ahi st2
  (st3.besti, st3.bestj, st3.bestsize)

/-- The `while queue` recursion of `get_matching_blocks`, accumulating only the
total size of the matching blocks (the later sort/merge steps preserve that
sum, which is all `ratio` consumes).  Python's `queue.pop()` takes the last
appended region, so the region above the found block is processed first. -/
def matchSumGo (a b : List Char) (b2j : List (Char × List Nat)) :
    Nat → List (Nat × Nat × Nat × Nat) → Nat → Nat
  | 0, _, acc => acc
  | _ + 1, [], acc => acc
  | fuel + 1, (alo, ahi, blo, bhi) :: rest, acc =>
    let (i, j, k) := findLongestMatch a b b2j alo ahi blo bhi
    if k = 0 then matchSumGo a b b2j fuel rest acc
    else
      matchSumGo a b b2j fuel
        ((if i + k < ahi && j + k < bhi then [(i + k, ahi, j + k, bhi)] else [])
          ++ (if alo < i && blo < j then [(alo, i, blo, j)] else [])
          ++ rest)
        (acc + k)

/-- `sum(triple[-1] for triple in SequenceMatcher(None, a, b).get_matching_blocks())`.
The fuel bounds the number of processed regions, which is at most twice the
number of matching blocks plus one. -/
def matchSum (a b : List Char) : Nat :=
  matchSumGo a b (b2jAuto b) (2 * (a.length + b.length) + 4)
    [(0, a.length, 0, b.length)] 0

/-- One scored candidate of `get_close_matches`: `ratio = 2 * m / t` with
`t = len(s) + len(word)`. -/
structure Scored where
  m : Nat
  t : Nat
  s : String
deriving DecidableEq

/-- Strict descending comparison on `(ratio, string)` pairs, as used by
`heapq._nlargest` via tuple comparison; ratios compared by cross-multiplication. -/
def scoredGT (p q : Scored) : Bool :=
  q.m * p.t < p.m * q.t || (p.m * q.t = q.m * p.t && decide (q.s < p.s))

/-- Stable descending insertion (equal `(ratio, string)` pairs keep their
original order, matching `sorted(..., reverse=True)`). -/
def insertDesc (x : Scored) : List Scored → List Scored
  | [] => [x]
  | y :: ys => if scoredGT y x then y :: insertDesc x ys else x :: y :: ys

def sortDesc : List Scored → List Scored
  | [] => []
  | x :: xs => insertDesc x (sortDesc xs)

/-- `difflib.get_close_matches(word, possibilities, n=3, cutoff=0.6)`:
keep candidates with `2m/t >= 3/5` (i.e. `3t <= 10m`), order them like
`_nlargest` and keep the first three. -/
def getCloseMatches (word : String) (possibilities : List String) : List String :=
  let scored := possibilities.filterMap (fun x =>
    let m := matchSum x.data word.data
    let t := x.length + word.length
    if 3 * t ≤ 10 * m then some (⟨m, t, x⟩ : Scored) else none)
  ((sortDesc scored).take 3).map (·.s)

/-- Stable ascending insertion sort on strings, Python's `sorted`. -/
def insertAsc (x : String) : List String → List String
  | [] => [x]
  | y :: ys => if decide (y < x) || y = x then y :: insertAsc x ys else x :: y :: ys

def sortAsc : List String → List String
  | [] => []
  | x :: xs => insertAsc x (sortAsc xs)

end Blueprint

namespace Blueprint

/-! ### Errors (`errors.py`) -/

/-- Suggestion list assembled by `BlueprintNotFoundError.__init__`
(errors.py lines 129-156). -/
def mkSuggestions (blueprintName : String) (available : List String) : List String :=
  if available.isEmpty then
    ["No blueprints found. Check that:",
     "1. Your templates directory exists (.astro/templates/)",
     "2. Your blueprint files are in the templates directory",
     "3. Your blueprint classes inherit from Blueprint[ConfigType]"]
  else
    (match getCloseMatches blueprintName available with
     | [] => []
     | [m] => ["Did you mean '" ++ m ++ "'?"]
     | ms => ["Did you mean one of: "
         ++ String.intercalate ", " (ms.map (fun s => "'" ++ s ++ "'")) ++ "?"])
    ++ ["Available blueprints: " ++ String.intercalate ", " (sortAsc available)]

/-- The data a raised `BlueprintNotFoundError` carries; its constructor
computes the suggestion list. -/
structure NotFoundErrorData where
  blueprintName : String
  available : List String
  suggestions : List String
deriving DecidableEq

def mkNotFoundError (blueprintName : String) (available : List String) : NotFoundErrorData :=
  ⟨blueprintName, available, mkSuggestions blueprintName available⟩

inductive BpError where
  | duplicate (blueprintName : String) (locations : List String)
  | notFound (data : NotFoundErrorData)
deriving DecidableEq

/-! ### Registry (`registry.py`)

Python dicts are modelled as insertion-ordered association lists with unique
keys; classes are represented by their class-name strings. -/

def alookup {α : Type} : List (String × α) → String → Option α
  | [], _ => none
  | (k, v) :: rest, key => if k = key then some v else alookup rest key

/-- `self._blueprint_locations.setdefault-style append (lines 102-104). -/
def addLoc (m : List (String × List String)) (key loc : String) :
    List (String × List String) :=
  match m with
  | [] => [(key, [loc])]
  | (k, ls) :: rest =>
    if k = key then (k, ls ++ [loc]) :: rest else (k, ls) :: addLoc rest key loc

/-- `d[key] = v` on a dict: replace in place or append. -/
def setBp {α : Type} (m : List (String × α)) (key : String) (v : α) :
    List (String × α) :=
  match m with
  | [] => [(key, v)]
  | (k, v') :: rest =>
    if k = key then (k, v) :: rest else (k, v') :: setBp rest key v

/-- One Blueprint subclass found while scanning, in discovery order. -/
structure DiscoveredClass where
  className : String
  location : String
deriving DecidableEq

structure RegistryState where
  blueprints : List (String × String)
  locations : List (String × List String)
deriving DecidableEq

/-- Registration of one discovered class (registry.py lines 98-107): track the
location for conflict detection, then register the blueprint (last one wins). -/
def discoverStep (st : RegistryState) (item : DiscoveredClass) : RegistryState :=
  let n := getBlueprintName item.className
  { blueprints := setBp st.blueprints n item.className
    locations := addLoc st.locations n item.location }

/-- `discover_blueprints` over a fixed discovery sequence, starting from the
cleared maps. -/
def discover (items : List DiscoveredClass) : RegistryState :=
  items.foldl discoverStep ⟨[], []⟩

def resolveLookup (st : RegistryState) (name : String) : Except BpError String :=
  match alookup st.blueprints name with
  | none => .error (.notFound (mkNotFoundError name (st.blueprints.map (·.1))))
  | some cls => .ok cls

/-- `BlueprintRegistry.get_blueprint` after discovery has run (lines 133-144):
conflict check first (`len(locations[name]) > 1` raises
`DuplicateBlueprintError(name, locations[name])`), then lookup, with a
`BlueprintNotFoundError` carrying `list(self._blueprints.keys())` on a miss. -/
def getBlueprint (st : RegistryState) (name : String) : Except BpError String :=
  match alookup st.locations name with
  | some locs =>
    if 1 < locs.length then .error (.duplicate name locs) else resolveLookup st name
  | none => resolveLookup st name

/-- The locations a given derived name receives from a discovery sequence, in
discovery order. -/
def locsFor (name : String) (items : List DiscoveredClass) : List String :=
  (items.filter (fun it => getBlueprintName it.className = name)).map (·.location)

/-! ### Static listing scan (`BlueprintRegistry._list_blueprints_without_import`) -/

/-- One `ast.ClassDef` matched by `_is_blueprint_class_ast`, in scan order,
with its extracted location string and docstring. -/
structure ScannedClass where
  className : String
  location : String
  description : String
deriving DecidableEq

structure BlueprintSummary where
  name : String
  className : String
  module : String
  description : String
  locations : List String
deriving DecidableEq

/-- The info dict built at registry.py lines 215-222. -/
def mkSummary (n : String) (item : ScannedClass) : BlueprintSummary :=
  ⟨n, item.className, item.location, item.description, [item.location]⟩

def insertSummary (x : BlueprintSummary) :
    List BlueprintSummary → List BlueprintSummary
  | [] => [x]
  | y :: ys =>
    if decide (y.name < x.name) || y.name = x.name then y :: insertSummary x ys
    else x :: y :: ys

/-- `sorted(blueprints.values(), key=lambda x: x["name"])` (stable). -/
def sortSummaries : List BlueprintSummary → List BlueprintSummary
  | [] => []
  | x :: xs => insertSummary x (sortSummaries xs)

structure ScanState where
  bps : List (String × BlueprintSummary)
  locs : List (String × List String)

/-- The scan loop of `_list_blueprints_without_import` (lines 184-222): append
the location, then raise `DuplicateBlueprintError(name, locations[name])` the
moment the name is already registered, else record the summary. -/
def scanGo : ScanState → List ScannedClass → Except BpError (List BlueprintSummary)
  | st, [] => .ok (sortSummaries (st.bps.map (·.2)))
  | st, item :: rest =>
    if (alookup st.bps (getBlueprintName item.className)).isSome then
      .error (.duplicate (getBlueprintName item.className)
        ((alookup (addLoc st.locs (getBlueprintName item.className) item.location)
            (getBlueprintName item.className)).getD []))
    else
      scanGo ⟨setBp st.bps (getBlueprintName item.className)
            (mkSummary (getBlueprintName item.className) item),
          addLoc st.locs (getBlueprintName item.className) item.location⟩ rest

def listBlueprintsScan (items : List ScannedClass) :
    Except BpError (List BlueprintSummary) :=
  scanGo ⟨[], []⟩ items

/-- The locations a derived name receives from a list of scanned class
declarations, in scan order. -/
def locsScan (name : String) (items : List ScannedClass) : List String :=
  (items.filter (fun q => getBlueprintName q.className = name)).map (·.location)

/-! ### Build-method synthesis (`Blueprint._generate_build_method`, core.py 52-95) -/

/-- `inspect.Parameter.empty` versus a resolved default value. -/
inductive ParamDefault (Val : Type) where
  | empty
  | value (v : Val)
deriving DecidableEq

structure BuildParam (Val : Type) where
  name : String
  default : ParamDefault Val
deriving DecidableEq

/-- One entry of `config_type.model_fields`: `getDefault` models
`field_info.get_default(call_default_factory=True)`, whose failure is a raised
exception (`.error`). -/
structure FieldIntrospect (Val : Type) where
  name : String
  required : Bool
  getDefault : Except String Val

/-- The `for field_name, field_info in config_type.model_fields.items()` loop
(lines 61-75).  There is no exception handler: a failing default resolution
propagates and no parameter list is produced. -/
def mkBuildParams {Val : Type} :
    List (FieldIntrospect Val) → Except String (List (BuildParam Val))
  | [] => .ok []
  | f :: fs =>
    if f.required then
      match mkBuildParams fs with
      | .error e => .error e
      | .ok ps => .ok (⟨f.name, .empty⟩ :: ps)
    else
      match f.getDefault with
      | .error e => .error e
      | .ok v =>
        match mkBuildParams fs with
        | .error e => .error e
        | .ok ps => .ok (⟨f.name, .value v⟩ :: ps)

/-- The full synthesized signature: the leading `cls` parameter (line 58)
followed by one keyword-only parameter per schema field. -/
def mkBuildSignature {Val : Type} (fields : List (FieldIntrospect Val)) :
    Except String (List (BuildParam Val)) :=
  match mkBuildParams fields with
  | .error e => .error e
  | .ok ps => .ok (⟨"cls", .empty⟩ :: ps)

/-- A Blueprint subclass with a determined config schema, reduced to the two
capabilities the generated `build` body uses: `cls._config_type(**kwargs)`
(pydantic validation) and `instance.render`. -/
structure BlueprintClass (Kw Cfg Dag Err : Type) where
  configValidate : Kw → Except Err Cfg
  render : Cfg → Dag

/-- The body of the generated `build` classmethod (core.py lines 78-89):
validate the keyword arguments into a config, instantiate, render, and return
the result; a pydantic validation error propagates. -/
def build {Kw Cfg Dag Err : Type} (cls : BlueprintClass Kw Cfg Dag Err)
    (kwargs : Kw) : Except Err Dag :=
  match cls.configValidate kwargs with
  | .error e => .error e
  | .ok config => .ok (cls.render config)

/-! ### CodeWriter value formatting (`dag_writer.py`) -/

/-- `value.replace('"', '\\"')`. -/
def escDq : List Char → List Char
  | [] => []
  | c :: rest => if c = '"' then '\\' :: '"' :: escDq rest else c :: escDq rest

def escapeDq (s : String) : String := ⟨escDq s.data⟩

/-- The single-quote character (spelled by code point). -/
def squote : Char := Char.ofNat 39

/-- The string branch of `DAGWriter._format_serialized_value`
(dag_writer.py lines 321-329): single quotes, unescaped, when the value holds
a double quote but no single quote; else double quotes with internal double
quotes escaped. -/
def formatStrParam (value : String) : String :=
  if value.data.contains '"' && !value.data.contains squote then
    String.singleton squote ++ value ++ String.singleton squote
  else
    "\"" ++ escapeDq value ++ "\""

/-- Scans emitted text: every double quote occurs as part of `\"`. -/
def everyDqEscaped : List Char → Bool
  | [] => true
  | [c] => !(c == '"')
  | c :: c' :: rest =>
    if c = '"' then false
    else if c = '\\' && c' = '"' then everyDqEscaped rest
    else everyDqEscaped (c' :: rest)

/-- The timedelta branch of `DAGWriter._format_value` (dag_writer.py lines
178-186) on `total_seconds = int(value.total_seconds())`; Python `%` and `//`
are floor operations. -/
def formatTimedelta (totalSeconds : Int) : String :=
  if totalSeconds.fmod 3600 = 0 then
    "timedelta(hours=" ++ toString (totalSeconds.fdiv 3600) ++ ")"
  else if totalSeconds.fmod 60 = 0 then
    "timedelta(minutes=" ++ toString (totalSeconds.fdiv 60) ++ ")"
  else
    "timedelta(seconds=" ++ toString totalSeconds ++ ")"

/-! ### Schedule parameter emission (`Blueprint._generate_dag_definition`,
core.py lines 312-321) -/

/-- The two schedule attributes of a rendered DAG, in the string-valued case;
`none` models a missing/`None` attribute and Python string truthiness is
non-emptiness. -/
structure DagScheduleFields where
  schedule_interval : Option String
  schedule : Option String
deriving DecidableEq

def truthyStr : Option String → Bool
  | some s => s != ""
  | none => false

/-- The `schedule=` lines appended to `dag_params`: the legacy
`schedule_interval` attribute is tested first and, when truthy, its value is
emitted; the unified `schedule` attribute is only consulted otherwise. -/
def scheduleParams (d : DagScheduleFields) : List String :=
  if truthyStr d.schedule_interval then
    ["    schedule=\"" ++ d.schedule_interval.getD "" ++ "\","]
  else if truthyStr d.schedule then
    ["    schedule=\"" ++ d.schedule.getD "" ++ "\","]
  else []

end Blueprint

namespace Blueprint

/-! ### Supporting lemmas on the name derivations -/

theorem isUp_pyLower (c : Char) : isUp (pyLower c) = false := by
  unfold pyLower
  by_cases h : isUp c
  · rw [if_pos h]
    unfold isUp at h
    rw [Bool.and_eq_true, decide_eq_true_eq, decide_eq_true_eq] at h
    obtain ⟨h1, h2⟩ := h
    generalize c.toNat = n at h1 h2
    interval_cases n <;> decide
  · rw [if_neg h]
    simpa using h

theorem pyLower_of_noUp {c : Char} (h : isUp c = false) : pyLower c = c := by
  unfold pyLower
  rw [h]
  rfl

theorem sub1_of_noUp : ∀ l : List Char, (∀ c ∈ l, isUp c = false) → sub1 l = l
  | [], _ => rfl
  | [_], _ => rfl
  | [_, _], _ => rfl
  | x :: y :: z :: rest, h => by
    have hx : isUp x = false := h x (by simp)
    unfold sub1
    rw [hx, Bool.false_and, Bool.false_and, if_neg (by simp)]
    rw [sub1_of_noUp (y :: z :: rest) (fun c hc => h c (List.mem_cons_of_mem _ hc))]

theorem sub2_of_noUp : ∀ l : List Char, (∀ c ∈ l, isUp c = false) → sub2 l = l
  | [], _ => rfl
  | [_], _ => rfl
  | x :: y :: rest, h => by
    have hy : isUp y = false := h y (by simp)
    unfold sub2
    rw [hy, Bool.and_false, if_neg (by simp)]
    rw [sub2_of_noUp (y :: rest) (fun c hc => h c (List.mem_cons_of_mem _ hc))]

theorem map_pyLower_of_noUp :
    ∀ l : List Char, (∀ c ∈ l, isUp c = false) → l.map pyLower = l
  | [], _ => rfl
  | x :: rest, h => by
    rw [List.map_cons, pyLower_of_noUp (h x (by simp)),
      map_pyLower_of_noUp rest (fun c hc => h c (List.mem_cons_of_mem _ hc))]

theorem sub1_of_noUUL : ∀ l : List Char, noUUL l = true → sub1 l = l
  | [], _ => rfl
  | [_], _ => rfl
  | [_, _], _ => rfl
  | x :: y :: z :: rest, h => by
    unfold noUUL at h
    rw [Bool.and_eq_true] at h
    obtain ⟨hneg, hrest⟩ := h
    have hb : (isUp x && isUp y && isLow z) = false := by
      rwa [Bool.not_eq_true'] at hneg
    unfold sub1
    rw [if_neg (by simp [hb])]
    rw [sub1_of_noUUL (y :: z :: rest) hrest]

theorem sub2_tmpl_agree : ∀ (x : Char) (cs : List Char),
    noDigitUpper (x :: cs) = true →
    (sub2 (x :: cs)).map pyLower = pyLower x :: tmplGo (some x) cs
  | _, [], _ => rfl
  | x, y :: rest, h => by
    unfold noDigitUpper at h
    rw [Bool.and_eq_true] at h
    obtain ⟨hneg, hrest⟩ := h
    have hnd : (isDigitC x && isUp y) = false := by
      rwa [Bool.not_eq_true'] at hneg
    have hcond : ((isLow x || isDigitC x) && isUp y) = (isUp y && isLow x) := by
      cases hl : isLow x <;> cases hu : isUp y <;> simp_all
    have IH := sub2_tmpl_agree y rest hrest
    unfold sub2 tmplGo
    simp only [hcond]
    by_cases hc : (isUp y && isLow x) = true
    · rw [if_pos hc, if_pos hc]
      simp only [List.map_cons]
      rw [show pyLower '_' = '_' from rfl, IH]
    · rw [if_neg hc, if_neg hc]
      simp only [List.map_cons]
      rw [IH]

/-! ### Claim C1 -/

/-- C1: `BlueprintRegistry._get_blueprint_name` splits identifiers at
lowercase-to-uppercase boundaries and between an uppercase run and a following
Capitalized word via the two regex passes in sequence, so `"DailyETLJob"`
derives `"daily_etl_job"` (not `"daily_e_t_l_job"`), and the derivation is
idempotent on its own output for every input string. -/
theorem getBlueprintName_acronym_and_idempotent :
    getBlueprintName "DailyETLJob" = "daily_etl_job" ∧
    getBlueprintName "DailyETLJob" ≠ "daily_e_t_l_job" ∧
    ∀ s : String, getBlueprintName (getBlueprintName s) = getBlueprintName s := by
  refine ⟨by decide, by decide, fun s => ?_⟩
  have hchars : ∀ c ∈ (sub2 (sub1 s.data)).map pyLower, isUp c = false := by
    intro c hc
    obtain ⟨c', _, rfl⟩ := List.mem_map.mp hc
    exact isUp_pyLower c'
  show getBlueprintName ⟨(sub2 (sub1 s.data)).map pyLower⟩ = _
  unfold getBlueprintName
  rw [show (String.mk ((sub2 (sub1 s.data)).map pyLower)).data
      = (sub2 (sub1 s.data)).map pyLower from rfl]
  rw [sub1_of_noUp _ hchars]
  rw [sub2_of_noUp _ hchars]
  rw [map_pyLower_of_noUp _ hchars]

/-! ### Claim C10 -/

/-- C10 (counterexample): the registry key derivation and the blueprint's own
template-name derivation disagree on `"DailyETLJob"`: `"daily_etl_job"`
versus `"daily_etljob"`. -/
theorem registry_template_name_divergence :
    getBlueprintName "DailyETLJob" = "daily_etl_job" ∧
    getTemplateName "DailyETLJob" = "daily_etljob" ∧
    getBlueprintName "DailyETLJob" ≠ getTemplateName "DailyETLJob" :=
  ⟨by decide, by decide, by decide⟩

/-- C10 (amended): `BlueprintRegistry._get_blueprint_name` and
`Blueprint._get_template_name` produce the same snake_case name for every
class identifier that contains neither two adjacent uppercase letters followed
by a lowercase letter nor a digit directly followed by an uppercase letter;
outside that fragment the two derivations can diverge. -/
theorem registry_template_name_agreement (s : String)
    (h1 : noDigitUpper s.data = true) (h2 : noUUL s.data = true) :
    getBlueprintName s = getTemplateName s := by
  unfold getBlueprintName getTemplateName
  rw [sub1_of_noUUL s.data h2]
  cases hs : s.data with
  | nil => rfl
  | cons x cs =>
    rw [hs] at h1
    have ht : tmplGo none (x :: cs) = pyLower x :: tmplGo (some x) cs := by
      conv_lhs => unfold tmplGo
      rw [if_neg (by simp)]
    rw [ht, sub2_tmpl_agree x cs h1]

/-- C10 witness: on `"MultiSourceETL"` both hypotheses hold and the two
derivations agree. -/
theorem registry_template_name_agreement_witness :
    noDigitUpper "MultiSourceETL".data = true ∧ noUUL "MultiSourceETL".data = true ∧
    getBlueprintName "MultiSourceETL" = getTemplateName "MultiSourceETL" :=
  ⟨by decide, by decide, registry_template_name_agreement "MultiSourceETL" (by decide) (by decide)⟩

end Blueprint

namespace Blueprint

/-! ### Supporting lemmas on the association-list maps -/

theorem alookup_addLoc_self (m : List (String × List String)) (k v : String) :
    alookup (addLoc m k v) k = some ((alookup m k).getD [] ++ [v]) := by
  induction m with
  | nil => simp [addLoc, alookup]
  | cons p rest IH =>
    obtain ⟨k', ls⟩ := p
    unfold addLoc
    by_cases h : k' = k
    · rw [if_pos h]
      unfold alookup
      rw [if_pos h, if_pos h]
      rfl
    · rw [if_neg h]
      unfold alookup
      rw [if_neg h, if_neg h]
      exact IH

theorem alookup_addLoc_ne (m : List (String × List String)) (k v k' : String)
    (h : k ≠ k') : alookup (addLoc m k v) k' = alookup m k' := by
  induction m with
  | nil => simp [addLoc, alookup, h]
  | cons p rest IH =>
    obtain ⟨k'', ls⟩ := p
    unfold addLoc
    by_cases h2 : k'' = k
    · rw [if_pos h2]
      unfold alookup
      rw [if_neg (h2 ▸ h), if_neg (h2 ▸ h)]
    · rw [if_neg h2]
      unfold alookup
      by_cases h3 : k'' = k'
      · rw [if_pos h3, if_pos h3]
      · rw [if_neg h3, if_neg h3]
        exact IH

theorem alookup_setBp_self {α : Type} (m : List (String × α)) (k : String) (v : α) :
    alookup (setBp m k v) k = some v := by
  induction m with
  | nil => simp [setBp, alookup]
  | cons p rest IH =>
    obtain ⟨k', v'⟩ := p
    unfold setBp
    by_cases h : k' = k
    · rw [if_pos h]
      unfold alookup
      rw [if_pos h]
    · rw [if_neg h]
      unfold alookup
      rw [if_neg h]
      exact IH

theorem alookup_setBp_ne {α : Type} (m : List (String × α)) (k : String) (v : α)
    (k' : String) (h : k ≠ k') : alookup (setBp m k v) k' = alookup m k' := by
  induction m with
  | nil => simp [setBp, alookup, h]
  | cons p rest IH =>
    obtain ⟨k'', v'⟩ := p
    unfold setBp
    by_cases h2 : k'' = k
    · rw [if_pos h2]
      unfold alookup
      rw [if_neg (h2 ▸ h), if_neg (h2 ▸ h)]
    · rw [if_neg h2]
      unfold alookup
      by_cases h3 : k'' = k'
      · rw [if_pos h3, if_pos h3]
      · rw [if_neg h3, if_neg h3]
        exact IH

/-- The discovery fold accumulates, for each derived name, exactly the
locations contributed by the discovery sequence, in order. -/
theorem discover_locs (name : String) :
    ∀ (items : List DiscoveredClass) (st : RegistryState),
    alookup ((items.foldl discoverStep st).locations) name
      = match alookup st.locations name with
        | some l => some (l ++ locsFor name items)
        | none => if locsFor name items = [] then none else some (locsFor name items)
  | [], st => by
    show alookup st.locations name = _
    cases h : alookup st.locations name with
    | none => simp [locsFor]
    | some l => simp [locsFor]
  | item :: rest, st => by
    rw [List.foldl_cons]
    rw [discover_locs name rest (discoverStep st item)]
    by_cases hn : getBlueprintName item.className = name
    · have hlocs : alookup (discoverStep st item).locations name
          = some ((alookup st.locations name).getD [] ++ [item.location]) := by
        unfold discoverStep
        rw [← hn]
        exact alookup_addLoc_self _ _ _
      rw [hlocs]
      have hfor : locsFor name (item :: rest) = item.location :: locsFor name rest := by
        unfold locsFor
        rw [List.filter_cons, if_pos (by simpa using hn)]
        rfl
      rw [hfor]
      cases h : alookup st.locations name with
      | none => simp
      | some l => simp
    · have hlocs : alookup (discoverStep st item).locations name
          = alookup st.locations name := by
        unfold discoverStep
        exact alookup_addLoc_ne _ _ _ _ hn
      rw [hlocs]
      have hfor : locsFor name (item :: rest) = locsFor name rest := by
        unfold locsFor
        rw [List.filter_cons, if_neg (by simpa using hn)]
      rw [hfor]

/-! ### Claim C2 -/

/-- C2: for every discovery sequence in which a derived name receives more than
one source location, `get_blueprint` on that name raises
`DuplicateBlueprintError` carrying exactly the recorded locations — whatever
the discovery order — and never returns one of the classes. -/
theorem getBlueprint_duplicate_error (items : List DiscoveredClass) (name : String)
    (h : 2 ≤ (locsFor name items).length) :
    getBlueprint (discover items) name
      = Except.error (BpError.duplicate name (locsFor name items)) ∧
    ∀ cls, getBlueprint (discover items) name ≠ Except.ok cls := by
  have hne : locsFor name items ≠ [] := by
    intro h0
    rw [h0] at h
    simp at h
  have hl : alookup (discover items).locations name = some (locsFor name items) := by
    unfold discover
    rw [discover_locs name items ⟨[], []⟩]
    show (if locsFor name items = [] then none else some (locsFor name items)) = _
    rw [if_neg hne]
  have hmain : getBlueprint (discover items) name
      = Except.error (BpError.duplicate name (locsFor name items)) := by
    unfold getBlueprint
    simp only [hl]
    rw [if_pos (by omega)]
  exact ⟨hmain, fun cls hc => by rw [hmain] at hc; cases hc⟩

/-- C2 witness: two files declaring `DailyETL` produce the duplicate error with
both locations. -/
theorem getBlueprint_duplicate_error_witness :
    2 ≤ (locsFor "daily_etl"
      [⟨"DailyETL", "dags/a.py"⟩, ⟨"WeeklyJob", "dags/a.py"⟩,
        ⟨"DailyETL", "dags/b.py"⟩]).length ∧
    getBlueprint (discover
        [⟨"DailyETL", "dags/a.py"⟩, ⟨"WeeklyJob", "dags/a.py"⟩,
          ⟨"DailyETL", "dags/b.py"⟩]) "daily_etl"
      = Except.error (BpError.duplicate "daily_etl"
          (locsFor "daily_etl"
            [⟨"DailyETL", "dags/a.py"⟩, ⟨"WeeklyJob", "dags/a.py"⟩,
              ⟨"DailyETL", "dags/b.py"⟩])) :=
  ⟨by decide,
    (getBlueprint_duplicate_error
      [⟨"DailyETL", "dags/a.py"⟩, ⟨"WeeklyJob", "dags/a.py"⟩,
        ⟨"DailyETL", "dags/b.py"⟩]
      "daily_etl" (by decide)).1⟩

end Blueprint

namespace Blueprint

/-! ### Claim C3 -/

theorem locsScan_nil_of_ne (name : String) (ps : List ScannedClass)
    (h : ∀ q ∈ ps, getBlueprintName q.className ≠ name) : locsScan name ps = [] := by
  unfold locsScan
  rw [List.filter_eq_nil_iff.mpr (by intro q hq; simpa using h q hq)]
  rfl

theorem locsScan_cons_eq (x : ScannedClass) (ps : List ScannedClass) :
    locsScan (getBlueprintName x.className) (x :: ps)
      = x.location :: locsScan (getBlueprintName x.className) ps := by
  unfold locsScan
  rw [List.filter_cons, if_pos (by simp)]
  rfl

theorem locsScan_cons_ne (name : String) (p : ScannedClass) (ps : List ScannedClass)
    (h : getBlueprintName p.className ≠ name) :
    locsScan name (p :: ps) = locsScan name ps := by
  unfold locsScan
  rw [List.filter_cons, if_neg (by simpa using h)]

/-- If the scanned prefix has pairwise distinct names but the head name is
already registered, the scan raises the duplicate error immediately, carrying
the recorded locations plus the current one. -/
theorem scanGo_hits_dup : ∀ (ps : List ScannedClass) (st : ScanState)
    (x : ScannedClass) (rest : List ScannedClass),
    (∀ q ∈ ps, alookup st.bps (getBlueprintName q.className) = none) →
    (ps.map (fun q => getBlueprintName q.className)).Nodup →
    (alookup st.bps (getBlueprintName x.className)).isSome = true →
    scanGo st (ps ++ x :: rest)
      = Except.error (BpError.duplicate (getBlueprintName x.className)
          ((alookup st.locs (getBlueprintName x.className)).getD [] ++ [x.location]))
  | [], st, x, rest => by
    intro _ _ hx
    show scanGo st (x :: rest) = _
    unfold scanGo
    rw [if_pos hx, alookup_addLoc_self]
    rfl
  | p :: ps', st, x, rest => by
    intro hdisj hnodup hx
    have hp := hdisj p (List.mem_cons_self p ps')
    have hne : getBlueprintName p.className ≠ getBlueprintName x.className := by
      intro he
      rw [← he, hp] at hx
      simp at hx
    rw [List.map_cons, List.nodup_cons] at hnodup
    obtain ⟨hpnotin, hnodup'⟩ := hnodup
    show scanGo st (p :: (ps' ++ x :: rest)) = _
    unfold scanGo
    rw [if_neg (by rw [hp]; exact Bool.false_ne_true)]
    have hres := scanGo_hits_dup ps'
      ⟨setBp st.bps (getBlueprintName p.className)
          (mkSummary (getBlueprintName p.className) p),
        addLoc st.locs (getBlueprintName p.className) p.location⟩ x rest
      (fun q hq => by
        have hq2 : getBlueprintName p.className ≠ getBlueprintName q.className := by
          intro he
          exact hpnotin (he ▸ List.mem_map_of_mem (fun r => getBlueprintName r.className) hq)
        show alookup (setBp st.bps (getBlueprintName p.className) _)
            (getBlueprintName q.className) = none
        rw [alookup_setBp_ne _ _ _ _ hq2]
        exact hdisj q (List.mem_cons_of_mem p hq))
      hnodup'
      (by rw [alookup_setBp_ne _ _ _ _ hne]; exact hx)
    rw [hres, alookup_addLoc_ne _ _ _ _ hne]

/-- The scan aborts at the second occurrence of a derived name: whatever comes
after that occurrence is never examined, and the error carries the locations
gathered so far for the name. -/
theorem scanGo_second_location : ∀ (pre : List ScannedClass) (st : ScanState)
    (x : ScannedClass) (rest : List ScannedClass),
    (∀ q ∈ pre, alookup st.bps (getBlueprintName q.className) = none) →
    (pre.map (fun q => getBlueprintName q.className)).Nodup →
    getBlueprintName x.className ∈ pre.map (fun q => getBlueprintName q.className) →
    scanGo st (pre ++ x :: rest)
      = Except.error (BpError.duplicate (getBlueprintName x.className)
          ((alookup st.locs (getBlueprintName x.className)).getD []
            ++ (locsScan (getBlueprintName x.className) pre ++ [x.location])))
  | [], _, _, _ => by
    intro _ _ hmem
    simp at hmem
  | p :: pre', st, x, rest => by
    intro hdisj hnodup hmem
    have hp := hdisj p (List.mem_cons_self p pre')
    rw [List.map_cons, List.nodup_cons] at hnodup
    obtain ⟨hpnotin, hnodup'⟩ := hnodup
    have hdisj' : ∀ q ∈ pre',
        alookup (setBp st.bps (getBlueprintName p.className)
            (mkSummary (getBlueprintName p.className) p))
          (getBlueprintName q.className) = none := by
      intro q hq
      have hq2 : getBlueprintName p.className ≠ getBlueprintName q.className := by
        intro he
        exact hpnotin (he ▸ List.mem_map_of_mem (fun r => getBlueprintName r.className) hq)
      rw [alookup_setBp_ne _ _ _ _ hq2]
      exact hdisj q (List.mem_cons_of_mem p hq)
    show scanGo st (p :: (pre' ++ x :: rest)) = _
    unfold scanGo
    rw [if_neg (by rw [hp]; exact Bool.false_ne_true)]
    by_cases he : getBlueprintName p.className = getBlueprintName x.className
    · have hnotin' : ∀ q ∈ pre',
          getBlueprintName q.className ≠ getBlueprintName x.className := by
        intro q hq hq2
        exact hpnotin (by
          rw [he]
          exact hq2 ▸ List.mem_map_of_mem (fun r => getBlueprintName r.className) hq)
      have hres := scanGo_hits_dup pre'
        ⟨setBp st.bps (getBlueprintName p.className)
            (mkSummary (getBlueprintName p.className) p),
          addLoc st.locs (getBlueprintName p.className) p.location⟩ x rest
        hdisj' hnodup'
        (by rw [← he, alookup_setBp_self]; rfl)
      rw [hres]
      have hlocs : alookup (addLoc st.locs (getBlueprintName p.className) p.location)
          (getBlueprintName x.className)
          = some ((alookup st.locs (getBlueprintName x.className)).getD []
              ++ [p.location]) := by
        rw [← he]
        exact alookup_addLoc_self _ _ _
      rw [hlocs]
      have hscan : locsScan (getBlueprintName x.className) (p :: pre')
          = [p.location] := by
        rw [← he, locsScan_cons_eq, he,
          locsScan_nil_of_ne _ _ hnotin']
      rw [hscan]
      simp
    · have hmem' : getBlueprintName x.className
          ∈ pre'.map (fun q => getBlueprintName q.className) := by
        rcases List.mem_cons.mp hmem with h1 | h1
        · exact absurd h1.symm he
        · exact h1
      have hres := scanGo_second_location pre'
        ⟨setBp st.bps (getBlueprintName p.className)
            (mkSummary (getBlueprintName p.className) p),
          addLoc st.locs (getBlueprintName p.className) p.location⟩ x rest
        hdisj' hnodup' hmem'
      rw [hres, alookup_addLoc_ne _ _ _ _ he, locsScan_cons_ne _ _ _ he]

/-- C3: for every scan sequence in which a derived name is declared a second
time, `_list_blueprints_without_import` raises `DuplicateBlueprintError` at
the moment that second declaration is scanned — the remainder of the scan is
never reached and no name was requested — carrying the locations recorded for
the name up to that point. -/
theorem listBlueprintsScan_eager_duplicate (pre : List ScannedClass) (x : ScannedClass)
    (rest : List ScannedClass)
    (hnodup : (pre.map (fun q => getBlueprintName q.className)).Nodup)
    (hmem : getBlueprintName x.className
      ∈ pre.map (fun q => getBlueprintName q.className)) :
    listBlueprintsScan (pre ++ x :: rest)
      = Except.error (BpError.duplicate (getBlueprintName x.className)
          (locsScan (getBlueprintName x.className) pre ++ [x.location])) := by
  have h := scanGo_second_location pre ⟨[], []⟩ x rest (fun q _ => rfl) hnodup hmem
  unfold listBlueprintsScan
  rw [h]
  rfl

/-- C3 witness: `DailyETL` declared in `dags/a.py` and again in `dags/b.py`
makes the listing scan fail with both locations. -/
theorem listBlueprintsScan_eager_duplicate_witness :
    (([⟨"DailyETL", "dags/a.py", "First"⟩] : List ScannedClass).map
        (fun q => getBlueprintName q.className)).Nodup ∧
    getBlueprintName (ScannedClass.mk "DailyETL" "dags/b.py" "Second").className
      ∈ ([⟨"DailyETL", "dags/a.py", "First"⟩] : List ScannedClass).map
        (fun q => getBlueprintName q.className) ∧
    listBlueprintsScan
        (([⟨"DailyETL", "dags/a.py", "First"⟩] : List ScannedClass)
          ++ (⟨"DailyETL", "dags/b.py", "Second"⟩ : ScannedClass) :: [])
      = Except.error (BpError.duplicate "daily_etl" ["dags/a.py", "dags/b.py"]) := by
  refine ⟨by decide, by decide, ?_⟩
  have h := listBlueprintsScan_eager_duplicate
    ([⟨"DailyETL", "dags/a.py", "First"⟩] : List ScannedClass)
    ⟨"DailyETL", "dags/b.py", "Second"⟩ [] (by decide) (by decide)
  rw [h]
  exact congrArg Except.error (by decide)

end Blueprint

namespace Blueprint

/-! ### Claim C4 -/

/-- C4: the generated `build` entry point validates the supplied keyword
arguments through the schema's own validation, instantiates the blueprint,
invokes `render` on the validated config, and returns `render`'s result
unchanged; a validation failure propagates as-is, with no duplicated
validation logic. -/
theorem build_contract {Kw Cfg Dag Err : Type} (cls : BlueprintClass Kw Cfg Dag Err)
    (kwargs : Kw) :
    (∀ config, cls.configValidate kwargs = .ok config →
      build cls kwargs = .ok (cls.render config)) ∧
    (∀ e, cls.configValidate kwargs = .error e → build cls kwargs = .error e) := by
  constructor <;> (intro x h; unfold build; rw [h])

/-- C4 witness: a concrete blueprint whose validation accepts
`retries = 3` builds exactly the rendered artifact. -/
theorem build_contract_witness :
    ((⟨fun kw =>
          if kw = [("retries", 3)] then Except.ok 3 else Except.error "invalid",
        fun n => "dag-" ++ toString n⟩
        : BlueprintClass (List (String × Nat)) Nat String String).configValidate
        [("retries", 3)]
      = Except.ok 3 ∧
    build (⟨fun kw =>
          if kw = [("retries", 3)] then Except.ok 3 else Except.error "invalid",
        fun n => "dag-" ++ toString n⟩
        : BlueprintClass (List (String × Nat)) Nat String String) [("retries", 3)]
      = Except.ok "dag-3") := by
  refine ⟨rfl, ?_⟩
  have h := (build_contract (⟨fun kw =>
        if kw = [("retries", 3)] then Except.ok 3 else Except.error "invalid",
      fun n => "dag-" ++ toString n⟩
      : BlueprintClass (List (String × Nat)) Nat String String) [("retries", 3)]).1 3 rfl
  exact h.trans (congrArg Except.ok (by decide))

/-! ### Claim C5 -/

/-- C5 (counterexample): a schema with a good required field, an optional field
whose default resolution raises, and a further good optional field makes
`_generate_build_method`'s parameter synthesis abort with the raised error —
the remaining field's parameter is not synthesized, contradicting the claimed
log-and-skip degradation. -/
theorem mkBuildSignature_abort_cex :
    mkBuildSignature
      ([⟨"job_id", true, Except.ok 0⟩,
        ⟨"retries", false, Except.error "default factory raised"⟩,
        ⟨"schedule", false, Except.ok 1⟩] : List (FieldIntrospect Int))
      = Except.error "default factory raised" := rfl

/-- C5 (amended): a field whose default resolution fails during build-method
synthesis makes the whole synthesis abort with that error (the exception
propagates out of the field loop); it is not logged-and-skipped and no
parameter list is produced for the remaining fields. -/
theorem mkBuildSignature_aborts {Val : Type} (pre post : List (FieldIntrospect Val))
    (f : FieldIntrospect Val) (e : String)
    (hok : ∀ g ∈ pre, g.required = true ∨ ∃ v, g.getDefault = Except.ok v)
    (hreq : f.required = false) (herr : f.getDefault = Except.error e) :
    mkBuildSignature (pre ++ f :: post) = Except.error e := by
  have key : ∀ pre' : List (FieldIntrospect Val),
      (∀ g ∈ pre', g.required = true ∨ ∃ v, g.getDefault = Except.ok v) →
      mkBuildParams (pre' ++ f :: post) = Except.error e := by
    intro pre'
    induction pre' with
    | nil =>
      intro _
      show mkBuildParams (f :: post) = Except.error e
      unfold mkBuildParams
      rw [if_neg (by rw [hreq]; exact Bool.false_ne_true), herr]
    | cons g gs IH =>
      intro h
      have hg := h g (List.mem_cons_self g gs)
      have hrest := IH (fun q hq => h q (List.mem_cons_of_mem g hq))
      show mkBuildParams (g :: (gs ++ f :: post)) = Except.error e
      rcases hg with hg | ⟨v, hv⟩
      · unfold mkBuildParams
        rw [if_pos hg, hrest]
      · by_cases hgr : g.required = true
        · unfold mkBuildParams
          rw [if_pos hgr, hrest]
        · unfold mkBuildParams
          rw [if_neg hgr, hv, hrest]
  unfold mkBuildSignature
  rw [key pre hok]

/-- C5 witness: with one sound preceding field, one failing optional field and
one following field, synthesis returns exactly the raised error. -/
theorem mkBuildSignature_aborts_witness :
    (∀ g ∈ [(⟨"job_id", true, Except.ok 0⟩ : FieldIntrospect Int)],
      g.required = true ∨ ∃ v, g.getDefault = Except.ok v) ∧
    (⟨"retries", false, Except.error "boom"⟩ : FieldIntrospect Int).required = false ∧
    mkBuildSignature
      ([⟨"job_id", true, Except.ok 0⟩]
        ++ (⟨"retries", false, Except.error "boom"⟩ : FieldIntrospect Int)
          :: [⟨"schedule", false, Except.ok 1⟩])
      = Except.error "boom" := by
  refine ⟨?_, rfl, ?_⟩
  · intro g hg
    rw [List.mem_singleton] at hg
    subst hg
    left
    rfl
  · exact mkBuildSignature_aborts [⟨"job_id", true, Except.ok 0⟩]
      [⟨"schedule", false, Except.ok 1⟩] ⟨"retries", false, Except.error "boom"⟩ "boom"
      (by intro g hg; rw [List.mem_singleton] at hg; subst hg; left; rfl)
      rfl rfl

end Blueprint

namespace Blueprint

/-! ### Claim C6 -/

theorem escDq_head : ∀ (l : List Char) (d : Char) (ds : List Char),
    escDq l = d :: ds → d ≠ '"'
  | [], _, _, h => by cases h
  | c :: l, d, ds, h => by
    unfold escDq at h
    by_cases hc : c = '"'
    · rw [if_pos hc] at h
      intro hd
      rw [← hd] at h
      cases h
      contradiction
    · rw [if_neg hc] at h
      cases h
      exact hc

theorem everyDqEscaped_escDq : ∀ l : List Char, everyDqEscaped (escDq l) = true
  | [] => rfl
  | c :: l => by
    unfold escDq
    by_cases hc : c = '"'
    · rw [if_pos hc]
      have IH := everyDqEscaped_escDq l
      cases hl : escDq l with
      | nil => rfl
      | cons d ds =>
        show everyDqEscaped ('\\' :: '"' :: d :: ds) = true
        unfold everyDqEscaped
        rw [if_neg (by decide), if_pos (by decide)]
        rw [← hl]
        exact IH
    · rw [if_neg hc]
      have IH := everyDqEscaped_escDq l
      cases hl : escDq l with
      | nil =>
        show everyDqEscaped [c] = true
        unfold everyDqEscaped
        simp [hc]
      | cons d ds =>
        show everyDqEscaped (c :: d :: ds) = true
        unfold everyDqEscaped
        rw [if_neg hc]
        have hd : d ≠ '"' := escDq_head l d ds hl
        rw [if_neg (by simp [hd]), ← hl]
        exact IH

/-- C6: a string parameter serialized by the CodeWriter is emitted in single
quotes with the value verbatim (no escaping) exactly when it contains a
double quote but no single quote, and otherwise in double quotes with every
internal double quote escaped. -/
theorem formatStrParam_quoting (v : String) :
    (v.data.contains '"' = true → v.data.contains squote = false →
      formatStrParam v = String.singleton squote ++ v ++ String.singleton squote) ∧
    (v.data.contains '"' = false ∨ v.data.contains squote = true →
      formatStrParam v = "\"" ++ escapeDq v ++ "\"" ∧
      everyDqEscaped (escapeDq v).data = true) := by
  constructor
  · intro h1 h2
    unfold formatStrParam
    rw [if_pos (by rw [h1, h2]; rfl)]
  · intro h
    have hcond : (v.data.contains '"' && !v.data.contains squote) = false := by
      rcases h with h | h
      · rw [h, Bool.false_and]
      · rw [h, Bool.not_true, Bool.and_false]
    unfold formatStrParam
    rw [if_neg (by rw [hcond]; exact Bool.false_ne_true)]
    exact ⟨rfl, everyDqEscaped_escDq v.data⟩

/-- C6 witness: a command string with a double quote and no single quote is
emitted single-quoted and untouched; a plain string is double-quoted. -/
theorem formatStrParam_quoting_witness :
    ((String.mk ['s', 'a', 'y', ' ', '"', 'h', 'i', '"']).data.contains '"' = true) ∧
    ((String.mk ['s', 'a', 'y', ' ', '"', 'h', 'i', '"']).data.contains squote = false) ∧
    formatStrParam (String.mk ['s', 'a', 'y', ' ', '"', 'h', 'i', '"'])
      = String.singleton squote ++ String.mk ['s', 'a', 'y', ' ', '"', 'h', 'i', '"']
        ++ String.singleton squote ∧
    formatStrParam "plain" = "\"" ++ escapeDq "plain" ++ "\"" :=
  ⟨by decide, by decide,
    (formatStrParam_quoting _).1 (by decide) (by decide),
    ((formatStrParam_quoting "plain").2 (Or.inl (by decide))).1⟩

/-! ### Claim C7 -/

/-- C7: the CodeWriter reformats a duration into the largest whole unit
dividing its total seconds — hours when divisible by 3600, else minutes when
divisible by 60, else seconds — preserving the value; in particular 3600
seconds emits 1 hour, 120 seconds 2 minutes and 90 seconds 90 seconds. -/
theorem formatTimedelta_largest_unit (n : Int) :
    (n.fmod 3600 = 0 →
      formatTimedelta n = "timedelta(hours=" ++ toString (n.fdiv 3600) ++ ")" ∧
      3600 * n.fdiv 3600 = n) ∧
    (n.fmod 3600 ≠ 0 → n.fmod 60 = 0 →
      formatTimedelta n = "timedelta(minutes=" ++ toString (n.fdiv 60) ++ ")" ∧
      60 * n.fdiv 60 = n) ∧
    (n.fmod 3600 ≠ 0 → n.fmod 60 ≠ 0 →
      formatTimedelta n = "timedelta(seconds=" ++ toString n ++ ")") := by
  refine ⟨fun h => ⟨?_, ?_⟩, fun h1 h2 => ⟨?_, ?_⟩, fun h1 h2 => ?_⟩
  · unfold formatTimedelta
    rw [if_pos h]
  · have := Int.fdiv_add_fmod n 3600
    omega
  · unfold formatTimedelta
    rw [if_neg h1, if_pos h2]
  · have := Int.fdiv_add_fmod n 60
    omega
  · unfold formatTimedelta
    rw [if_neg h1, if_neg h2]

/-- C7 witness: the three divisibility regimes at 3600, 120 and 90 seconds. -/
theorem formatTimedelta_witness :
    ((3600 : Int).fmod 3600 = 0 ∧
      formatTimedelta 3600 = "timedelta(hours=" ++ toString ((3600 : Int).fdiv 3600) ++ ")" ∧
      3600 * (3600 : Int).fdiv 3600 = 3600) ∧
    ((120 : Int).fmod 3600 ≠ 0 ∧ (120 : Int).fmod 60 = 0 ∧
      formatTimedelta 120 = "timedelta(minutes=" ++ toString ((120 : Int).fdiv 60) ++ ")") ∧
    ((90 : Int).fmod 3600 ≠ 0 ∧ (90 : Int).fmod 60 ≠ 0 ∧
      formatTimedelta 90 = "timedelta(seconds=" ++ toString (90 : Int) ++ ")") :=
  ⟨⟨by decide, (formatTimedelta_largest_unit 3600).1 (by decide)⟩,
   ⟨by decide, by decide,
     ((formatTimedelta_largest_unit 120).2.1 (by decide) (by decide)).1⟩,
   ⟨by decide, by decide,
     (formatTimedelta_largest_unit 90).2.2 (by decide) (by decide)⟩⟩

/-! ### Claim C8 -/

/-- C8 (counterexample): with both a truthy legacy `schedule_interval`
(`"@weekly"`) and a truthy unified `schedule` (`"@daily"`), the emitted
schedule parameter takes the legacy field's value, not the unified one the
claim prescribes. -/
theorem scheduleParams_cex :
    scheduleParams ⟨some "@weekly", some "@daily"⟩ = ["    schedule=\"@weekly\","] ∧
    scheduleParams ⟨some "@weekly", some "@daily"⟩ ≠ ["    schedule=\"@daily\","] :=
  ⟨by decide, by decide⟩

/-- C8 (amended): the graph-header emission prefers the legacy
`schedule_interval` attribute: whenever it is set and truthy its value is
emitted as the `schedule=` parameter, and the unified `schedule` attribute is
consulted only when the legacy one is falsy. -/
theorem scheduleParams_legacy_over_unified (d : DagScheduleFields) :
    (truthyStr d.schedule_interval = true →
      scheduleParams d = ["    schedule=\"" ++ d.schedule_interval.getD "" ++ "\","]) ∧
    (truthyStr d.schedule_interval = false → truthyStr d.schedule = true →
      scheduleParams d = ["    schedule=\"" ++ d.schedule.getD "" ++ "\","]) := by
  constructor
  · intro h
    unfold scheduleParams
    rw [if_pos h]
  · intro h1 h2
    unfold scheduleParams
    rw [if_neg (by rw [h1]; exact Bool.false_ne_true), if_pos h2]

/-- C8 witness: both branches at concrete field values. -/
theorem scheduleParams_legacy_witness :
    (truthyStr (some "@weekly") = true ∧
      scheduleParams ⟨some "@weekly", some "@daily"⟩
        = ["    schedule=\"" ++ (some "@weekly").getD "" ++ "\","]) ∧
    (truthyStr (none : Option String) = false ∧ truthyStr (some "@daily") = true ∧
      scheduleParams ⟨none, some "@daily"⟩
        = ["    schedule=\"" ++ (some "@daily").getD "" ++ "\","]) :=
  ⟨⟨by decide,
     (scheduleParams_legacy_over_unified ⟨some "@weekly", some "@daily"⟩).1 (by decide)⟩,
   ⟨by decide, by decide,
     (scheduleParams_legacy_over_unified ⟨none, some "@daily"⟩).2 (by decide) (by decide)⟩⟩

end Blueprint

namespace Blueprint

/-! ### Claim C9 -/

theorem mem_insertDesc (x y : Scored) :
    ∀ l : List Scored, y ∈ insertDesc x l → y = x ∨ y ∈ l
  | [], h => by
    unfold insertDesc at h
    simp at h
    exact Or.inl h
  | z :: zs, h => by
    unfold insertDesc at h
    by_cases hc : scoredGT z x = true
    · rw [if_pos hc] at h
      rcases List.mem_cons.mp h with h1 | h1
      · exact Or.inr (by simp [h1])
      · rcases mem_insertDesc x y zs h1 with h2 | h2
        · exact Or.inl h2
        · exact Or.inr (List.mem_cons_of_mem z h2)
    · rw [if_neg hc] at h
      rcases List.mem_cons.mp h with h1 | h1
      · exact Or.inl h1
      · exact Or.inr h1

theorem mem_sortDesc (y : Scored) : ∀ l : List Scored, y ∈ sortDesc l → y ∈ l
  | [], h => h
  | x :: xs, h => by
    unfold sortDesc at h
    rcases mem_insertDesc x y (sortDesc xs) h with h1 | h1
    · simp [h1]
    · exact List.mem_cons_of_mem x (mem_sortDesc y xs h1)

/-- Every returned close match is one of the possibilities and clears the
`cutoff = 0.6` similarity bar (`2m/t >= 3/5`). -/
theorem getCloseMatches_sound (word : String) (possibilities : List String) :
    ∀ m ∈ getCloseMatches word possibilities,
      m ∈ possibilities ∧
      3 * (m.length + word.length) ≤ 10 * matchSum m.data word.data := by
  intro m hm
  unfold getCloseMatches at hm
  obtain ⟨sc, hsc, hms⟩ := List.mem_map.mp hm
  have hsc2 : sc ∈ sortDesc (possibilities.filterMap (fun x =>
      if 3 * (x.length + word.length) ≤ 10 * matchSum x.data word.data then
        some (⟨matchSum x.data word.data, x.length + word.length, x⟩ : Scored)
      else none)) := List.take_subset 3 _ hsc
  have hsc3 := mem_sortDesc sc _ hsc2
  obtain ⟨a, ha, heq⟩ := List.mem_filterMap.mp hsc3
  by_cases hcond : 3 * (a.length + word.length) ≤ 10 * matchSum a.data word.data
  · rw [if_pos hcond] at heq
    cases heq
    subst hms
    exact ⟨ha, hcond⟩
  · rw [if_neg hcond] at heq
    cases heq

/-- At most `n = 3` matches are ever returned. -/
theorem getCloseMatches_len (word : String) (possibilities : List String) :
    (getCloseMatches word possibilities).length ≤ 3 := by
  unfold getCloseMatches
  rw [List.length_map, List.length_take]
  exact min_le_left 3 _

theorem mkSuggestions_single (name : String) (available : List String) (m : String)
    (hne : available.isEmpty = false)
    (hcm : getCloseMatches name available = [m]) :
    mkSuggestions name available
      = ["Did you mean '" ++ m ++ "'?",
         "Available blueprints: " ++ String.intercalate ", " (sortAsc available)] := by
  unfold mkSuggestions
  rw [if_neg (by rw [hne]; exact Bool.false_ne_true), hcm]
  rfl

theorem mkSuggestions_none (name : String) (available : List String)
    (hne : available.isEmpty = false)
    (hcm : getCloseMatches name available = []) :
    mkSuggestions name available
      = ["Available blueprints: " ++ String.intercalate ", " (sortAsc available)] := by
  unfold mkSuggestions
  rw [if_neg (by rw [hne]; exact Bool.false_ne_true), hcm]
  rfl

/-- C9: a resolution miss raises `BlueprintNotFoundError` carrying suggestions
fuzzy-matched against all known names with cutoff 0.6 and at most 3 matches;
with exactly one close match the suggestions hold the single did-you-mean line
naming it, and with no close match only the sorted list of available names. -/
theorem getBlueprint_notFound_suggestions (st : RegistryState) (name : String)
    (hnodup : ∀ locs, alookup st.locations name = some locs → locs.length ≤ 1)
    (hmiss : alookup st.blueprints name = none)
    (hsome : (st.blueprints.map (·.1)).isEmpty = false) :
    getBlueprint st name
      = Except.error (BpError.notFound
          (mkNotFoundError name (st.blueprints.map (·.1)))) ∧
    (getCloseMatches name (st.blueprints.map (·.1))).length ≤ 3 ∧
    (∀ m ∈ getCloseMatches name (st.blueprints.map (·.1)),
        m ∈ st.blueprints.map (·.1) ∧
        3 * (m.length + name.length) ≤ 10 * matchSum m.data name.data) ∧
    (∀ m, getCloseMatches name (st.blueprints.map (·.1)) = [m] →
        mkSuggestions name (st.blueprints.map (·.1))
          = ["Did you mean '" ++ m ++ "'?",
             "Available blueprints: "
               ++ String.intercalate ", " (sortAsc (st.blueprints.map (·.1)))]) ∧
    (getCloseMatches name (st.blueprints.map (·.1)) = [] →
        mkSuggestions name (st.blueprints.map (·.1))
          = ["Available blueprints: "
               ++ String.intercalate ", " (sortAsc (st.blueprints.map (·.1)))]) := by
  refine ⟨?_, getCloseMatches_len name _, getCloseMatches_sound name _,
    fun m hm => mkSuggestions_single name _ m hsome hm,
    fun hcm => mkSuggestions_none name _ hsome hcm⟩
  have hres : resolveLookup st name
      = Except.error (BpError.notFound
          (mkNotFoundError name (st.blueprints.map (·.1)))) := by
    unfold resolveLookup
    rw [hmiss]
  unfold getBlueprint
  cases hl : alookup st.locations name with
  | none => exact hres
  | some locs =>
    have := hnodup locs hl
    simp only []
    rw [if_neg (by omega)]
    exact hres

/-- C9 witness: requesting `daily_etll` against a registry knowing only
`daily_etl` yields the not-found error whose suggestions are the single
did-you-mean plus the available list. -/
theorem getBlueprint_notFound_suggestions_witness :
    getBlueprint ⟨[("daily_etl", "DailyETL")], [("daily_etl", ["dags/a.py"])]⟩ "daily_etll"
      = Except.error (BpError.notFound (mkNotFoundError "daily_etll" ["daily_etl"])) ∧
    mkSuggestions "daily_etll" ["daily_etl"]
      = ["Did you mean 'daily_etl'?", "Available blueprints: daily_etl"] := by
  have halo : alookup [("daily_etl", ["dags/a.py"])] "daily_etll" = none := by decide
  have h := getBlueprint_notFound_suggestions
    ⟨[("daily_etl", "DailyETL")], [("daily_etl", ["dags/a.py"])]⟩ "daily_etll"
    (fun locs hl => by rw [halo] at hl; cases hl)
    (by decide) (by decide)
  refine ⟨h.1, ?_⟩
  have h4 := h.2.2.2.1 "daily_etl" (by decide)
  exact h4.trans (by decide)

end Blueprint
